import Mathlib

/-!
Shallow embedding of the agent-orchestration core of the Photon repository
(crates/agent/src/manager.rs and crates/agent/src/host.rs), together with
proofs checking the natural-language specification against it.

Strings are modelled as `List Char`; the Rust `&str` helpers (`trim`,
`strip_prefix`, `strip_suffix`, `split`) are given faithful counterparts.
LLM calls, skill executions and the context store are external effects; they
enter the model as explicit oracle arguments, and the observable actions of a
run (skill executions, backend calls, context saves) are recorded as events.
-/

namespace Photon

/-- Character-list model of Rust strings. -/
abbrev Str := List Char

/-- Str constant from a Lean string literal. -/
def lit (s : String) : Str := s.data

/-- The Unicode White_Space property, the character class trimmed by Rust
`str::trim` (`char::is_whitespace`): U+0009..U+000D, U+0020, U+0085, U+00A0,
U+1680, U+2000..U+200A, U+2028, U+2029, U+202F, U+205F, U+3000. -/
def isRustWhitespace (c : Char) : Bool :=
  let n := c.toNat
  (0x09 ≤ n && n ≤ 0x0D) || n = 0x20 || n = 0x85 || n = 0xA0 || n = 0x1680 ||
    (0x2000 ≤ n && n ≤ 0x200A) || n = 0x2028 || n = 0x2029 || n = 0x202F ||
    n = 0x205F || n = 0x3000

/-- Left trim: drop leading whitespace, as Rust `str::trim_start`. -/
def ltrimL : Str → Str
  | [] => []
  | c :: cs => if isRustWhitespace c then ltrimL cs else c :: cs

/-- Right trim, as Rust `str::trim_end`. -/
def rtrimL (s : Str) : Str := (ltrimL s.reverse).reverse

/-- Rust `str::trim`. -/
def trimL (s : Str) : Str := rtrimL (ltrimL s)

/-- Option-returning removal of a leading marker, as Rust strip of a
given opening text: `some` of the remainder when `p` starts `s`. -/
def dropPre (p s : Str) : Option Str :=
  if s.take p.length = p then some (s.drop p.length) else none

/-- Option-returning removal of a trailing marker, the end-of-string
counterpart of `dropPre`. -/
def dropSuf (p s : Str) : Option Str :=
  if p.length ≤ s.length ∧ s.drop (s.length - p.length) = p then
    some (s.take (s.length - p.length))
  else none

/-- Rust `str::starts_with`. -/
def startsWithL (p s : Str) : Bool := s.take p.length = p

/-- Rust `str::ends_with`. -/
def endsWithL (p s : Str) : Bool :=
  decide (p.length ≤ s.length) && decide (s.drop (s.length - p.length) = p)

/-- Rust `str::split(sep)` collected to a list; never empty. -/
def splitOnC (sep : Char) (s : Str) : List Str :=
  match s with
  | [] => [[]]
  | c :: cs =>
    let rest := splitOnC sep cs
    if c = sep then [] :: rest
    else match rest with
      | [] => [[c]]
      | r :: rs => (c :: r) :: rs

/-- Rust `field.parse::<usize>()` (`usize::from_str`): an optional leading
`+` sign followed by one or more ASCII decimal digits; anything else is an
error. (Rust additionally errors on overflow past `usize::MAX`; the model
parses such numerals to their value, which is indistinguishable through the
array-index lookup `walkPath` performs, since no array can be that long.) -/
def parseUsize (cs : Str) : Option Nat :=
  let digits := match cs with
    | '+' :: rest => rest
    | _ => cs
  if digits.isEmpty then none
  else if digits.all Char.isDigit then
    some (digits.foldl (fun acc c => acc * 10 + (c.toNat - 48)) 0)
  else none

/-- Rust `Vec::join(sep)`. -/
def joinSep (sep : Str) : List Str → Str
  | [] => []
  | [x] => x
  | x :: xs => x ++ sep ++ joinSep sep xs

/-- serde_json `Value`: the dynamic JSON trees used for task params,
artifacts and skill output data. Objects are association lists preserving
order. -/
inductive Json where
  | null : Json
  | bool (b : Bool) : Json
  | num (n : Int) : Json
  | str (s : Str) : Json
  | arr (xs : List Json) : Json
  | obj (kvs : List (Str × Json)) : Json
  deriving Inhabited

namespace Json

mutual

def beq : Json → Json → Bool
  | .null, .null => true
  | .bool a, .bool b => a = b
  | .num a, .num b => a = b
  | .str a, .str b => a = b
  | .arr xs, .arr ys => beqL xs ys
  | .obj xs, .obj ys => beqO xs ys
  | _, _ => false

def beqL : List Json → List Json → Bool
  | [], [] => true
  | x :: xs, y :: ys => beq x y && beqL xs ys
  | _, _ => false

def beqO : List (Str × Json) → List (Str × Json) → Bool
  | [], [] => true
  | (k1, v1) :: xs, (k2, v2) :: ys => k1 = k2 && beq v1 v2 && beqO xs ys
  | _, _ => false

end

mutual

theorem beq_iff : ∀ a b : Json, beq a b = true ↔ a = b
  | .null, b => by cases b <;> simp [beq]
  | .bool x, b => by cases b <;> simp [beq]
  | .num n, b => by cases b <;> simp [beq]
  | .str s, b => by cases b <;> simp [beq]
  | .arr xs, b => by
      cases b <;> simp [beq]
      case arr ys => exact beqL_iff xs ys
  | .obj xs, b => by
      cases b <;> simp [beq]
      case obj ys => exact beqO_iff xs ys

theorem beqL_iff : ∀ xs ys : List Json, beqL xs ys = true ↔ xs = ys
  | [], ys => by cases ys <;> simp [beqL]
  | x :: xs, ys => by
      cases ys with
      | nil => simp [beqL]
      | cons y ys => simp [beqL, beq_iff x y, beqL_iff xs ys]

theorem beqO_iff : ∀ xs ys : List (Str × Json), beqO xs ys = true ↔ xs = ys
  | [], ys => by cases ys <;> simp [beqO]
  | (k, v) :: xs, ys => by
      cases ys with
      | nil => simp [beqO]
      | cons y ys =>
        obtain ⟨k2, v2⟩ := y
        simp [beqO, beq_iff v v2, beqO_iff xs ys, and_assoc]

end

instance instDecEq : DecidableEq Json := fun a b => decidable_of_iff _ (beq_iff a b)

end Json

/-- Artifact map: task id ↦ produced JSON value (the artifact store of the context, `HashMap<String, Value>`). -/
abbrev Artifacts := List (Str × Json)

/-- Map lookup (`HashMap::get`) on the artifact map. -/
def lookupA (m : Artifacts) (k : Str) : Option Json :=
  match m with
  | [] => none
  | (k', v) :: rest => if k' = k then some v else lookupA rest k

/-- Lookup of a key in a JSON object (`serde_json::Map::get`). -/
def lookupObj (kvs : List (Str × Json)) (k : Str) : Option Json :=
  match kvs with
  | [] => none
  | (k', v) :: rest => if k' = k then some v else lookupObj rest k

/-- Map insert (`HashMap::insert`): overwrites an existing key. -/
def insertA (m : Artifacts) (k : Str) (v : Json) : Artifacts :=
  match m with
  | [] => [(k, v)]
  | (k', v') :: rest => if k' = k then (k, v) :: rest else (k', v') :: insertA rest k v

/-- Set insert (`HashSet::insert`) on a list-represented string set. -/
def insertS (s : List Str) (x : Str) : List Str :=
  if x ∈ s then s else s ++ [x]

-- --- Fence stripping -------------------------------------------------------

/-- Model of `ManagerAgent::clean_json_markdown` (manager.rs lines 878-889).
The Rust body is a chain of strip calls where each `unwrap_or(input)` falls
back to the ORIGINAL input, so the intermediate result is discarded whenever
one link of the chain fails; the model reproduces that exactly. -/
def clean_json_markdown (input : Str) : Str :=
  let s1 := trimL input
  let s2 := match dropPre (lit ("```json")) s1 with
    | some r => r
    | none => input
  let s3 := match dropPre (lit ("```")) s2 with
    | some r => r
    | none => input
  let s4 := match dropSuf (lit ("```")) s3 with
    | some r => r
    | none => input
  trimL s4

/-- Model of `DebateHost::clean_json` (host.rs lines 340-351): trims, strips
one leading fence marker (preferring the `json`-tagged form), then one
trailing fence marker. -/
def clean_json (input : Str) : Str :=
  let s := trimL input
  let s :=
    match dropPre (lit ("```json")) s with
    | some r => r
    | none =>
      match dropPre (lit ("```")) s with
      | some r => r
      | none => s
  match dropSuf (lit ("```")) s with
  | some r => r
  | none => s

-- --- Parameter resolution --------------------------------------------------

/-- Path walk inside `resolve_params_deep` (manager.rs lines 783-811): each
segment is an object key or a numeric array index; any mismatch is a miss. -/
def walkPath : Json → List Str → Option Json
  | v, [] => some v
  | .obj kvs, f :: rest =>
    (match lookupObj kvs f with
     | some v => walkPath v rest
     | none => none)
  | .arr xs, f :: rest =>
    (match parseUsize f with
     | some i =>
       (match xs.get? i with
        | some v => walkPath v rest
        | none => none)
     | none => none)
  | _, _ :: _ => none

/-- Reference resolution for one string (manager.rs lines 772-816): a string
of the exact shape `{{head.seg1...segn}}` is split and looked up in the
artifact map; `some` is the traversal hit, `none` any miss or shape failure. -/
def resolveRef (s : Str) (artifacts : Artifacts) : Option Json :=
  if startsWithL (lit ("\x7b\x7b")) s && endsWithL (lit ("\x7d\x7d")) s then
    let content := trimL ((s.drop 2).take (s.length - 4))
    match splitOnC '.' content with
    | [] => none
    | task_id :: rest =>
      match lookupA artifacts task_id with
      | some root_val => walkPath root_val rest
      | none => none
  else none

mutual

/-- Model of `ManagerAgent::resolve_params_deep` (manager.rs lines 769-833). -/
def resolve_params_deep (params : Json) (artifacts : Artifacts) : Json :=
  match params with
  | .str s =>
    (match resolveRef s artifacts with
     | some v => v
     | none => .str s)
  | .arr xs => .arr (resolveL xs artifacts)
  | .obj kvs => .obj (resolveO kvs artifacts)
  | other => other

def resolveL (xs : List Json) (artifacts : Artifacts) : List Json :=
  match xs with
  | [] => []
  | x :: rest => resolve_params_deep x artifacts :: resolveL rest artifacts

def resolveO (kvs : List (Str × Json)) (artifacts : Artifacts) : List (Str × Json) :=
  match kvs with
  | [] => []
  | (k, v) :: rest => (k, resolve_params_deep v artifacts) :: resolveO rest artifacts

end

mutual

/-- Reference-freeness: the tree contains no string of the fully-bracketed
shape `{{...}}` (the only shape `resolve_params_deep` ever rewrites). -/
def refFree : Json → Bool
  | .str s => !(startsWithL (lit ("\x7b\x7b")) s && endsWithL (lit ("\x7d\x7d")) s)
  | .arr xs => refFreeL xs
  | .obj kvs => refFreeO kvs
  | _ => true

def refFreeL : List Json → Bool
  | [] => true
  | x :: rest => refFree x && refFreeL rest

def refFreeO : List (Str × Json) → Bool
  | [] => true
  | (_, v) :: rest => refFree v && refFreeO rest

end

-- --- Verification: vote + adjudication -------------------------------------

deriving instance DecidableEq for Except

/-- Error values (`anyhow::Error`): the message text. -/
abbrev Err := Str

/-- One verification vote (manager.rs struct `VerificationResult`). -/
structure VerificationResult where
  passed : Bool
  reason : Str
  suggestion : Str
  deriving DecidableEq

/-- The adjudicator's verdict (manager.rs struct `AdjudicationResult`). -/
structure AdjudicationResult where
  final_decision : Bool
  rationale : Str
  deriving DecidableEq

/-- Vote admission (manager.rs lines 533-544): an `Ok` vote is kept, an
`Err` (failed LLM call or failed parse) is dropped. -/
def okVote : Except Err VerificationResult → Option VerificationResult
  | .ok v => some v
  | .error _ => none

/-- The valid votes out of the three issued ones, in issue order. -/
def validVotes (v1 v2 v3 : Except Err VerificationResult) : List VerificationResult :=
  [v1, v2, v3].filterMap okVote

/-- Model of `ManagerAgent::verify_with_adjudication` (manager.rs lines
511-597). The three arguments `v1 v2 v3` are the outcomes of the three
`verify_output_single` futures (an `Err` is a failed LLM call or a failed
parse of the vote); `adj` is the outcome of the adjudication chat-and-parse
chain. The second component of the result records whether the adjudication
backend was invoked. -/
def verify_with_adjudication (v1 v2 v3 : Except Err VerificationResult)
    (adj : Except Err AdjudicationResult) :
    Except Err (Bool × Str) × Bool :=
  let valid := validVotes v1 v2 v3
  let pass_results := valid.filter (fun v => v.passed)
  let fail_results := valid.filter (fun v => !v.passed)
  let pass_count := pass_results.length
  let fail_count := fail_results.length
  if fail_count = 0 then
    (.ok (true, lit ("Unanimous Pass")), false)
  else if pass_count = 0 then
    let reasons := joinSep (lit (" | ")) (fail_results.map (fun r => r.reason))
    (.ok (false, lit ("Unanimous Fail: ") ++ reasons), false)
  else
    match adj with
    | .error e => (.error e, true)
    | .ok a => (.ok (a.final_decision, a.rationale), true)

-- --- Task results and the scheduler fold -----------------------------------

/-- Per-task outcome (manager.rs struct `TaskResult`). -/
structure TaskResultM where
  task_id : Str
  success : Bool
  summary : Str
  output_data : Option Json
  verification_feedback : Option Str
  deriving DecidableEq

/-- The pieces of `AgentContext` the scheduler mutates: the history log and
the artifact map. -/
structure CtxState where
  history : List Str
  artifacts : Artifacts
  deriving DecidableEq

/-- Result of folding one batch: the `(batch_failed, failure_info)` pair
returned by `process_execution_results` together with the mutated
`completed_ids`, `task_results_history` and context. -/
structure FoldOut where
  batch_failed : Bool
  failure_info : Str
  completed : List Str
  histLog : List (Str × Str)
  ctx : CtxState
  deriving DecidableEq

/-- One fold step state of `ManagerAgent::process_execution_results`
(manager.rs lines 837-871), with the accumulator made explicit:
`batch_failed` and `failure_info` are threaded through the loop, and an
`Err` element aborts the whole fold (the `res?` in the source). -/
def processResultsAux (results : List (Except Err TaskResultM))
    (completed : List Str) (histLog : List (Str × Str)) (ctx : CtxState)
    (batch_failed : Bool) (failure_info : Str) :
    Except Err FoldOut :=
  match results with
  | [] => .ok { batch_failed := batch_failed, failure_info := failure_info,
                completed := completed, histLog := histLog, ctx := ctx }
  | r :: rest =>
    match r with
    | .error e => .error e
    | .ok res =>
      if res.success then
        let completed := insertS completed res.task_id
        let histLog := histLog ++ [(res.task_id, res.summary)]
        let ctx := { ctx with history := ctx.history ++
          [lit ("Task [") ++ res.task_id ++ lit ("] SUCCESS. Summary: ") ++ res.summary] }
        let ctx := match res.output_data with
          | some d => { ctx with artifacts := insertA ctx.artifacts res.task_id d }
          | none => ctx
        processResultsAux rest completed histLog ctx batch_failed failure_info
      else
        let reason := res.verification_feedback.getD (lit ("Unknown"))
        let finfo := lit ("Task \x27") ++ res.task_id ++ lit ("\x27 failed. Reason: ") ++ reason
        let ctx := { ctx with history := ctx.history ++
          [lit ("Task [") ++ res.task_id ++ lit ("] FAILURE: ") ++ finfo] }
        processResultsAux rest completed histLog ctx true finfo

/-- Model of `ManagerAgent::process_execution_results`: the fold starts with
`batch_failed = false` and an empty `failure_info`. -/
def process_execution_results (results : List (Except Err TaskResultM))
    (completed : List Str) (histLog : List (Str × Str)) (ctx : CtxState) :
    Except Err FoldOut :=
  processResultsAux results completed histLog ctx false []

/-- The failure message recorded into `failure_info` for one failed task
(manager.rs line 865). -/
def failMsg (r : TaskResultM) : Str :=
  lit ("Task \x27") ++ r.task_id ++ lit ("\x27 failed. Reason: ") ++
    r.verification_feedback.getD (lit ("Unknown"))

/-- The history line appended for one failed task (manager.rs line 867). -/
def failLine (r : TaskResultM) : Str :=
  lit ("Task [") ++ r.task_id ++ lit ("] FAILURE: ") ++ failMsg r

/-- The value `failure_info` holds after folding `rs` starting from `init`:
the message of the last failed result, or `init` if none failed. -/
def lastFailureMsg (init : Str) (rs : List TaskResultM) : Str :=
  rs.foldl (fun acc r => if r.success then acc else failMsg r) init

-- --- DAG scheduler ---------------------------------------------------------

/-- A plan node (manager.rs struct `SubTask`). -/
structure SubTask where
  id : Str
  description : Str
  dependencies : List Str
  skill_name : Str
  params : Json
  acceptance_criteria : Str
  deriving DecidableEq

/-- Frontier membership: not yet completed, and every dependency completed
(the two filters of `find_executable_tasks`). -/
def isExecutable (done : List Str) (t : SubTask) : Bool :=
  !(decide (t.id ∈ done)) && t.dependencies.all (fun d => decide (d ∈ done))

/-- Model of `ManagerAgent::find_executable_tasks` (manager.rs lines
748-765), including the deadlock check. -/
def find_executable_tasks (all : List SubTask) (done : List Str) :
    Except Err (List SubTask) :=
  let executable := all.filter (isExecutable done)
  if executable.isEmpty && all.any (fun t => !(decide (t.id ∈ done))) then
    .error (lit ("Plan Deadlock detected."))
  else .ok executable

/-- Observable actions of a run: a task handed to the batch executor (its
skill call plus the verification calls it triggers), a backend call issued
directly by the run loop, and a `ContextStore::save`. -/
inductive Event where
  | skillExec (taskId : Str) : Event
  | llm (stage : Str) : Event
  | save : Event
  deriving DecidableEq

/-- Oracles standing for the external effects of `run_task`: the planning
chat-and-parse, the review stage, the parallel batch executor (indexed by
iteration number), the replanner (indexed by replan number), and the final
synthesis. -/
structure RunOracles where
  plan : Except Err (List SubTask)
  review : List SubTask → Except Err (List SubTask)
  batch : Nat → List SubTask → List (Except Err TaskResultM)
  replan : Nat → Except Err (List SubTask)
  synthesis : Except Err Json

/-- The scheduler state of `run_task` (manager.rs lines 234-247). -/
structure SchedState where
  plan : List SubTask
  completed : List Str
  histLog : List (Str × Str)
  replanCount : Nat
  ctx : CtxState
  iter : Nat
  deriving DecidableEq

/-- manager.rs line 247: `const MAX_GLOBAL_REPLANS: usize = 3`. -/
def MAX_GLOBAL_REPLANS : Nat := 3

/-- Outcome of one pass through the scheduling loop body. -/
inductive StepOut where
  | done (s : SchedState) : StepOut
  | next (s : SchedState) : StepOut
  | fail (e : Err) : StepOut
  deriving DecidableEq

/-- One iteration of the `loop` in `run_task` (manager.rs lines 250-319):
completion check, frontier computation (with deadlock), parallel batch,
result folding, and on batch failure either the replan-budget abort or a
replanner invocation merging preserved completed tasks with the new tasks.
The event list records what the iteration observably did. -/
def run_task_step (o : RunOracles) (st : SchedState) : StepOut × List Event :=
  if st.plan.all (fun t => decide (t.id ∈ st.completed)) then (.done st, [])
  else
    match find_executable_tasks st.plan st.completed with
    | .error e => (.fail e, [])
    | .ok frontier =>
      let evs := frontier.map (fun t => Event.skillExec t.id)
      let results := o.batch st.iter frontier
      match process_execution_results results st.completed st.histLog st.ctx with
      | .error e => (.fail e, evs)
      | .ok fold =>
        if fold.batch_failed then
          if MAX_GLOBAL_REPLANS ≤ st.replanCount then
            (.fail (lit ("Exceeded max global replanning limit. Last failure: ")
              ++ fold.failure_info), evs)
          else
            match o.replan st.replanCount with
            | .error e => (.fail e, evs ++ [Event.llm (lit ("replanning"))])
            | .ok new_tasks =>
              let valid_tasks := st.plan.filter (fun t => decide (t.id ∈ fold.completed))
              (.next { plan := valid_tasks ++ new_tasks, completed := fold.completed,
                       histLog := fold.histLog, replanCount := st.replanCount + 1,
                       ctx := fold.ctx, iter := st.iter + 1 },
                evs ++ [Event.llm (lit ("replanning"))])
        else
          (.next { st with completed := fold.completed, histLog := fold.histLog,
                           ctx := fold.ctx, iter := st.iter + 1 }, evs)

/-- The scheduling loop, fuelled (the Rust loop has no fuel; running out of
fuel is modelled as an error and occurs on no claim-relevant path). -/
def run_task_loop (o : RunOracles) : Nat → SchedState → Except Err SchedState × List Event
  | 0, _ => (.error (lit ("model: fuel exhausted")), [])
  | fuel + 1, st =>
    match run_task_step o st with
    | (.done s, evs) => (.ok s, evs)
    | (.fail e, evs) => (.error e, evs)
    | (.next s, evs) =>
      let r := run_task_loop o fuel s
      (r.1, evs ++ r.2)

/-- The initial scheduler state built at the top of `run_task` (manager.rs
lines 220-247): fresh context holding only the instruction line. -/
def initState (instruction : Str) (plan : List SubTask) : SchedState :=
  { plan := plan, completed := [], histLog := [], replanCount := 0,
    ctx := { history := [lit ("User Instruction: ") ++ instruction], artifacts := [] },
    iter := 0 }

/-- Model of `ManagerAgent::run_task` (manager.rs lines 215-346): planning,
review, the scheduling loop, synthesis, and then — only after a successful
synthesis — the single `persist_context` (`store.save`) call. Every `?`
error path returns without reaching that call. -/
def run_task (o : RunOracles) (instruction : Str) (fuel : Nat) :
    Except Err Json × List Event :=
  match o.plan with
  | .error e => (.error e, [Event.llm (lit ("planning"))])
  | .ok initial_plan =>
    match o.review initial_plan with
    | .error e => (.error e, [Event.llm (lit ("planning")), Event.llm (lit ("review"))])
    | .ok plan =>
      let lr := run_task_loop o fuel (initState instruction plan)
      let evs := [Event.llm (lit ("planning")), Event.llm (lit ("review"))] ++ lr.2
      match lr.1 with
      | .error e => (.error e, evs)
      | .ok _ =>
        match o.synthesis with
        | .error e => (.error e, evs ++ [Event.llm (lit ("synthesis"))])
        | .ok out => (.ok out, evs ++ [Event.llm (lit ("synthesis")), Event.save])

/-- Observable actions available inside `run_debate_core` (host.rs lines
156-273): the core has no access to the store, so `save` is absent. -/
inductive CoreEvent where
  | skillExec (speaker : Str) : CoreEvent
  | llm (stage : Str) : CoreEvent
  deriving DecidableEq

/-- Injection of core events into run events. -/
def liftCoreEvent : CoreEvent → Event
  | .skillExec s => .skillExec s
  | .llm s => .llm s

/-- Model of `DebateHost::run_debate` (host.rs lines 125-151): the wrapper
runs the core logic, then — whatever the core returned — performs exactly
one `store.save` and passes the result of the core through (a save failure is
logged and ignored, so it does not appear in the result). -/
def run_debate (core : Except Err Json × List CoreEvent) :
    Except Err Json × List Event :=
  (core.1, core.2.map liftCoreEvent ++ [Event.save])

/-- Count of `save` events. -/
def countSave (evs : List Event) : Nat :=
  (evs.filter (fun e => decide (e = Event.save))).length

-- --- Per-task pipeline -----------------------------------------------------

/-- Result of one `skill.execute` call (types.rs struct `TaskResult`). -/
structure ExecOut where
  summary : Str
  data : Option Json
  deriving DecidableEq

/-- Oracles for the external effects of one task pipeline, indexed by the
attempt number: the skill execution, the whole verification stage (the
outcome of `verify_with_adjudication`, whose `Err` is an adjudication
failure propagated by `?`), and the reflection stage. -/
structure PipelineOracles where
  exec : Nat → Except Err ExecOut
  verify : Nat → Except Err (Bool × Str)
  reflect : Nat → Except Err (Str × Json × Str)

/-- Observable actions of one task pipeline: a skill execution at a given
attempt, a reflection LLM call at a given attempt, and the recording of a
failure reason into `last_failure_reason`. -/
inductive PipeEvent where
  | exec (attempt : Nat) : PipeEvent
  | reflect (attempt : Nat) : PipeEvent
  | failRec (reason : Str) : PipeEvent
  deriving DecidableEq

/-- manager.rs line 400: `let max_retries = 2`. -/
def max_retries : Nat := 2

/-- The mutable locals of the retry loop (manager.rs lines 401-403). -/
structure PipeSt where
  current_skill_name : Str
  current_params : Json
  last_failure_reason : Str
  deriving DecidableEq

/-- The reflection stage of one failed attempt (manager.rs lines 464-485):
invoked only while `attempt < max_retries`; on success it replaces the skill
and params, on failure it keeps them (error only logged). -/
def reflectStep (o : PipelineOracles) (attempt : Nat) (st : PipeSt) :
    PipeSt × List PipeEvent :=
  if attempt < max_retries then
    match o.reflect attempt with
    | .ok (new_skill, new_params, _reason) =>
      ({ st with current_skill_name := new_skill, current_params := new_params },
       [.reflect attempt])
    | .error _ => (st, [.reflect attempt])
  else (st, [])

/-- The retry loop of `execute_task_pipeline` (manager.rs lines 406-495),
structurally recursive over the list of remaining attempt indices. -/
def runAttempts (skills : List Str) (o : PipelineOracles) (task : SubTask) :
    List Nat → PipeSt → Except Err TaskResultM × List PipeEvent
  | [], st =>
    (.ok { task_id := task.id, success := false,
           summary := lit ("Retries exhausted. Last error: ") ++ st.last_failure_reason,
           output_data := none,
           verification_feedback := some st.last_failure_reason }, [])
  | attempt :: rest, st =>
    if decide (st.current_skill_name ∈ skills) then
      match o.exec attempt with
      | .ok result =>
        (match o.verify attempt with
         | .error e => (.error e, [.exec attempt])
         | .ok (passed, verify_msg) =>
           if passed then
             (.ok { task_id := task.id, success := true, summary := result.summary,
                    output_data := result.data, verification_feedback := none },
              [.exec attempt])
           else
             let st1 := { st with last_failure_reason := verify_msg }
             let rs := reflectStep o attempt st1
             let r2 := runAttempts skills o task rest rs.1
             (r2.1, .exec attempt :: .failRec verify_msg :: (rs.2 ++ r2.2)))
      | .error e =>
        let msg := lit ("Runtime Error: ") ++ e
        let st1 := { st with last_failure_reason := msg }
        let rs := reflectStep o attempt st1
        let r2 := runAttempts skills o task rest rs.1
        (r2.1, .exec attempt :: .failRec msg :: (rs.2 ++ r2.2))
    else
      (.ok { task_id := task.id, success := false,
             summary := lit ("Skill \x27") ++ st.current_skill_name ++ lit ("\x27 not found"),
             output_data := none, verification_feedback := none }, [])

/-- Model of `ManagerAgent::execute_task_pipeline` (manager.rs lines
389-505): params are resolved against the artifact snapshot once, then the
retry loop runs over attempts `0..=max_retries`. -/
def execute_task_pipeline (skills : List Str) (o : PipelineOracles)
    (task : SubTask) (artifacts : Artifacts) :
    Except Err TaskResultM × List PipeEvent :=
  runAttempts skills o task (List.range (max_retries + 1))
    { current_skill_name := task.skill_name,
      current_params := resolve_params_deep task.params artifacts,
      last_failure_reason := [] }

/-- Event classifier: skill-execution events of the pipeline. -/
def isExecEvent : PipeEvent → Bool
  | .exec _ => true
  | _ => false

/-- The last failure reason recorded in an event trace, starting from
`init`: the value `last_failure_reason` holds after the trace. -/
def lastFailRec (init : Str) (evs : List PipeEvent) : Str :=
  evs.foldl (fun acc e =>
    match e with
    | .failRec r => r
    | _ => acc) init

-- --- Concrete fixtures used by counterexamples and witnesses ---------------

/-- A task depending on itself: the smallest deadlocked plan. -/
def taskSelfDep : SubTask :=
  { id := lit ("t1"), description := lit ("d"), dependencies := [lit ("t1")],
    skill_name := lit ("s"), params := Json.null, acceptance_criteria := [] }

/-- A one-node plan with no dependencies. -/
def taskPlain : SubTask :=
  { id := lit ("t1"), description := lit ("d"), dependencies := [],
    skill_name := lit ("s"), params := Json.null, acceptance_criteria := [] }

/-- Oracles whose every stage succeeds trivially over the empty plan. -/
def oraclesTrivial : RunOracles :=
  { plan := .ok [], review := fun p => .ok p, batch := fun _ _ => [],
    replan := fun _ => .ok [], synthesis := .ok Json.null }

/-- Oracles whose planning stage fails to parse. -/
def oraclesPlanFails : RunOracles :=
  { plan := .error (lit ("PlanParseError")), review := fun p => .ok p,
    batch := fun _ _ => [], replan := fun _ => .ok [], synthesis := .ok Json.null }

/-- Oracles for a one-task plan whose execution always fails, with a
replanner returning the same task again. -/
def oraclesFailingBatch : RunOracles :=
  { plan := .ok [taskPlain], review := fun p => .ok p,
    batch := fun _ _ =>
      [.ok { task_id := lit ("t1"), success := false, summary := lit ("s"),
             output_data := none, verification_feedback := some (lit ("boom")) }],
    replan := fun _ => .ok [taskPlain], synthesis := .ok Json.null }

/-- Scheduler state at the top of the loop for the deadlocked plan. -/
def stDeadlock : SchedState :=
  { plan := [taskSelfDep], completed := [], histLog := [], replanCount := 0,
    ctx := { history := [], artifacts := [] }, iter := 0 }

/-- Scheduler state at the top of the loop for the one-task plan. -/
def stPlain : SchedState :=
  { plan := [taskPlain], completed := [], histLog := [], replanCount := 0,
    ctx := { history := [], artifacts := [] }, iter := 0 }

/-- Pipeline fixture: the one registered skill. -/
def pipeTask : SubTask :=
  { id := lit ("t1"), description := lit ("d"), dependencies := [],
    skill_name := lit ("s"), params := Json.null, acceptance_criteria := [] }

/-- Pipeline fixture: execution succeeds, every verification round rejects
(with reason "b2" on the last attempt), reflection keeps the same skill. -/
def pipeOracles : PipelineOracles :=
  { exec := fun _ => .ok { summary := lit ("out"), data := none },
    verify := fun n => .ok (false, if n = 2 then lit ("b2") else lit ("b")),
    reflect := fun _ => .ok (lit ("s"), Json.null, lit ("r")) }

-- ===========================================================================
-- Theorems
-- ===========================================================================

/-- C3: the fence round-trip law fails in `clean_json_markdown`. For the
valid JSON text `{"r": 5}`, stripping the tagged fence `"```json\n"+s+"\n```"`
returns a string that still starts with the opening fence marker (so no JSON
parser can read it back as the value of `s`), instead of `s` itself; the
chained fallback to the original input after the inner marker fails to match
is the slip. The remaining clauses of the law do hold and are recorded here
too: the sibling `clean_json` strips the same input correctly (equal to `s`
modulo trimming), an unfenced string is unchanged, and an untagged fence is
stripped correctly even by `clean_json_markdown`. -/
theorem clean_json_markdown_tagged_fence_bug :
    clean_json_markdown (lit ("```json\n\x7b\"r\": 5\x7d\n```"))
      = lit ("```json\n\x7b\"r\": 5\x7d")
    ∧ clean_json_markdown (lit ("```json\n\x7b\"r\": 5\x7d\n```"))
      ≠ lit ("\x7b\"r\": 5\x7d")
    ∧ (clean_json_markdown (lit ("```json\n\x7b\"r\": 5\x7d\n```"))).take 1 = [Char.ofNat 96]
    ∧ trimL (clean_json (lit ("```json\n\x7b\"r\": 5\x7d\n```")))
      = lit ("\x7b\"r\": 5\x7d")
    ∧ clean_json_markdown (lit ("\x7b\"r\": 5\x7d")) = lit ("\x7b\"r\": 5\x7d")
    ∧ clean_json_markdown (lit ("```\n\x7b\"r\": 5\x7d\n```")) = lit ("\x7b\"r\": 5\x7d") := by
  decide

/-- C10: when all three verification votes are dropped (for each vote the LLM
call or the parse failed), `verify_with_adjudication` lands in the
`fail_count = 0` branch and returns a pass with reason "Unanimous Pass"
without invoking the adjudication backend. -/
theorem verify_all_votes_dropped_passes (e1 e2 e3 : Err)
    (adj : Except Err AdjudicationResult) :
    verify_with_adjudication (.error e1) (.error e2) (.error e3) adj
      = (.ok (true, lit ("Unanimous Pass")), false) := rfl

/-- C2: consensus protocol of `verify_with_adjudication` over the three
issued votes: failed votes are dropped (`validVotes`); if no valid vote
failed the result is a pass with reason "Unanimous Pass" and the
adjudicator is not called; if some valid vote failed and every valid vote
failed, the result is a fail concatenating the individual reject reasons
with " | " and the adjudicator is not called; if the valid votes are split,
the adjudication backend is called (exactly once — the flag records the one
call) and its parsed `final_decision` and `rationale` are the outcome. -/
theorem verify_with_adjudication_consensus
    (v1 v2 v3 : Except Err VerificationResult) (adj : Except Err AdjudicationResult) :
    ((∀ v ∈ validVotes v1 v2 v3, v.passed = true) →
      verify_with_adjudication v1 v2 v3 adj = (.ok (true, lit ("Unanimous Pass")), false))
    ∧ ((∃ v ∈ validVotes v1 v2 v3, v.passed = false) →
       (∀ v ∈ validVotes v1 v2 v3, v.passed = false) →
      verify_with_adjudication v1 v2 v3 adj =
        (.ok (false, lit ("Unanimous Fail: ") ++
          joinSep (lit (" | ")) ((validVotes v1 v2 v3).map (fun r => r.reason))), false))
    ∧ ((∃ v ∈ validVotes v1 v2 v3, v.passed = true) →
       (∃ v ∈ validVotes v1 v2 v3, v.passed = false) →
      (verify_with_adjudication v1 v2 v3 adj).2 = true
      ∧ ∀ a, adj = .ok a →
          verify_with_adjudication v1 v2 v3 adj = (.ok (a.final_decision, a.rationale), true)) := by
  refine ⟨?_, ?_, ?_⟩
  · intro hall
    have hfail : (validVotes v1 v2 v3).filter (fun v => !v.passed) = [] := by
      rw [List.filter_eq_nil_iff]
      intro a ha
      simp [hall a ha]
    simp [verify_with_adjudication, hfail]
  · intro hex hall
    have hfail : (validVotes v1 v2 v3).filter (fun v => !v.passed) = validVotes v1 v2 v3 := by
      rw [List.filter_eq_self]
      intro a ha
      simp [hall a ha]
    have hpass : (validVotes v1 v2 v3).filter (fun v => v.passed) = [] := by
      rw [List.filter_eq_nil_iff]
      intro a ha
      simp [hall a ha]
    obtain ⟨w, hw, hwp⟩ := hex
    have hne : validVotes v1 v2 v3 ≠ [] := by
      intro h
      rw [h] at hw
      exact List.not_mem_nil w hw
    have hlen : (validVotes v1 v2 v3).length ≠ 0 := by
      simpa [List.length_eq_zero] using hne
    simp [verify_with_adjudication, hfail, hpass, hlen]
  · intro hexp hexf
    obtain ⟨wp, hwp, hwpp⟩ := hexp
    obtain ⟨wf, hwf, hwfp⟩ := hexf
    have hfne : (validVotes v1 v2 v3).filter (fun v => !v.passed) ≠ [] := by
      intro h
      have : wf ∈ (validVotes v1 v2 v3).filter (fun v => !v.passed) := by
        rw [List.mem_filter]
        exact ⟨hwf, by simp [hwfp]⟩
      rw [h] at this
      exact List.not_mem_nil wf this
    have hpne : (validVotes v1 v2 v3).filter (fun v => v.passed) ≠ [] := by
      intro h
      have : wp ∈ (validVotes v1 v2 v3).filter (fun v => v.passed) := by
        rw [List.mem_filter]
        exact ⟨hwp, by simp [hwpp]⟩
      rw [h] at this
      exact List.not_mem_nil wp this
    have hflen : ((validVotes v1 v2 v3).filter (fun v => !v.passed)).length ≠ 0 := by
      simpa [List.length_eq_zero] using hfne
    have hplen : ((validVotes v1 v2 v3).filter (fun v => v.passed)).length ≠ 0 := by
      simpa [List.length_eq_zero] using hpne
    constructor
    · cases adj with
      | error e => simp [verify_with_adjudication, hflen, hplen]
      | ok a => simp [verify_with_adjudication, hflen, hplen]
    · intro a ha
      subst ha
      simp [verify_with_adjudication, hflen, hplen]

/-- Witness for C2 at a concrete split vote (two passes, one reject, the
adjudicator deciding false). -/
theorem verify_with_adjudication_consensus_witness :
    (verify_with_adjudication
        (.ok { passed := true, reason := lit ("g1"), suggestion := [] })
        (.ok { passed := false, reason := lit ("b"), suggestion := [] })
        (.ok { passed := true, reason := lit ("g2"), suggestion := [] })
        (.ok { final_decision := false, rationale := lit ("why") })).2 = true
    ∧ ∀ a, (Except.ok { final_decision := false, rationale := lit ("why") } :
          Except Err AdjudicationResult) = .ok a →
        verify_with_adjudication
          (.ok { passed := true, reason := lit ("g1"), suggestion := [] })
          (.ok { passed := false, reason := lit ("b"), suggestion := [] })
          (.ok { passed := true, reason := lit ("g2"), suggestion := [] })
          (.ok { final_decision := false, rationale := lit ("why") })
          = (.ok (a.final_decision, a.rationale), true) :=
  (verify_with_adjudication_consensus
      (.ok { passed := true, reason := lit ("g1"), suggestion := [] })
      (.ok { passed := false, reason := lit ("b"), suggestion := [] })
      (.ok { passed := true, reason := lit ("g2"), suggestion := [] })
      (.ok { final_decision := false, rationale := lit ("why") })).2.2
    (by decide) (by decide)

/-- Folding a batch of delivered (non-`Err`) results: the batch-failed flag
is the disjunction over the batch, `failure_info` ends up holding the LAST
failed message of the fold, the context history only grows, and every failed
result leaves its FAILURE line in the history. Shared support lemma. -/
theorem processResultsAux_map_ok (rs : List TaskResultM) :
    ∀ (completed : List Str) (histLog : List (Str × Str)) (ctx : CtxState)
      (bf : Bool) (fi : Str),
    ∃ fold : FoldOut,
      processResultsAux (rs.map Except.ok) completed histLog ctx bf fi = .ok fold
      ∧ fold.batch_failed = (bf || rs.any (fun r => !r.success))
      ∧ fold.failure_info = lastFailureMsg fi rs
      ∧ (∀ line ∈ ctx.history, line ∈ fold.ctx.history)
      ∧ (∀ r ∈ rs, r.success = false → failLine r ∈ fold.ctx.history) := by
  induction rs with
  | nil =>
    intro completed histLog ctx bf fi
    exact ⟨_, rfl, by simp, by simp [lastFailureMsg], fun line h => h, by simp⟩
  | cons r rest ih =>
    intro completed histLog ctx bf fi
    by_cases hs : r.success = true
    · have step :
        processResultsAux ((r :: rest).map Except.ok) completed histLog ctx bf fi
          = processResultsAux (rest.map Except.ok) (insertS completed r.task_id)
              (histLog ++ [(r.task_id, r.summary)])
              (match r.output_data with
               | some d =>
                 { history := ctx.history ++
                     [lit ("Task [") ++ r.task_id ++ lit ("] SUCCESS. Summary: ") ++ r.summary],
                   artifacts := insertA ctx.artifacts r.task_id d }
               | none =>
                 { history := ctx.history ++
                     [lit ("Task [") ++ r.task_id ++ lit ("] SUCCESS. Summary: ") ++ r.summary],
                   artifacts := ctx.artifacts })
              bf fi := by
        cases hd : r.output_data <;> simp [processResultsAux, hs, hd]
      obtain ⟨fold, heq, hbf, hfi, hmono, hfails⟩ :=
        ih (insertS completed r.task_id) (histLog ++ [(r.task_id, r.summary)])
          (match r.output_data with
           | some d =>
             { history := ctx.history ++
                 [lit ("Task [") ++ r.task_id ++ lit ("] SUCCESS. Summary: ") ++ r.summary],
               artifacts := insertA ctx.artifacts r.task_id d }
           | none =>
             { history := ctx.history ++
                 [lit ("Task [") ++ r.task_id ++ lit ("] SUCCESS. Summary: ") ++ r.summary],
               artifacts := ctx.artifacts })
          bf fi
      refine ⟨fold, by rw [step]; exact heq, ?_, ?_, ?_, ?_⟩
      · simpa [hs] using hbf
      · rw [hfi]
        simp [lastFailureMsg, hs]
      · intro line hline
        apply hmono
        cases r.output_data <;> simp <;> exact Or.inl hline
      · intro r2 hr2 hr2f
        cases hr2 with
        | head => simp [hs] at hr2f
        | tail _ htail => exact hfails r2 htail hr2f
    · replace hs : r.success = false := by
        cases h : r.success
        · rfl
        · exact absurd h hs
      have step :
        processResultsAux ((r :: rest).map Except.ok) completed histLog ctx bf fi
          = processResultsAux (rest.map Except.ok) completed histLog
              { history := ctx.history ++ [failLine r], artifacts := ctx.artifacts }
              true (failMsg r) := by
        simp [processResultsAux, hs, failLine, failMsg]
      obtain ⟨fold, heq, hbf, hfi, hmono, hfails⟩ :=
        ih completed histLog
          { history := ctx.history ++ [failLine r], artifacts := ctx.artifacts }
          true (failMsg r)
      refine ⟨fold, by rw [step]; exact heq, ?_, ?_, ?_, ?_⟩
      · rw [hbf]
        simp [hs]
      · rw [hfi]
        simp [lastFailureMsg, hs]
      · intro line hline
        apply hmono
        simp
        exact Or.inl hline
      · intro r2 hr2 hr2f
        cases hr2 with
        | head =>
          apply hmono
          simp
        | tail _ htail => exact hfails r2 htail hr2f

/-- C4 (counterexample): a batch with two failed results, `t1` with reason A
folded before `t2` with reason B. The claim says `failure_info` is the
message of the FIRST failure (about `t1`); the code returns the message of
the LAST one (about `t2`), because the fold overwrites `failure_info` on
every failure it meets. -/
theorem process_execution_results_first_failure_counterexample :
    process_execution_results
      [Except.ok { task_id := lit ("t1"), success := false, summary := lit ("s1"),
                   output_data := none, verification_feedback := some (lit ("A")) },
       Except.ok { task_id := lit ("t2"), success := false, summary := lit ("s2"),
                   output_data := none, verification_feedback := some (lit ("B")) }]
      [] [] { history := [], artifacts := [] }
    = .ok { batch_failed := true,
            failure_info := lit ("Task \x27t2\x27 failed. Reason: B"),
            completed := [], histLog := [],
            ctx := { history :=
                       [lit ("Task [t1] FAILURE: Task \x27t1\x27 failed. Reason: A"),
                        lit ("Task [t2] FAILURE: Task \x27t2\x27 failed. Reason: B")],
                     artifacts := [] } }
    ∧ lit ("Task \x27t2\x27 failed. Reason: B") ≠ lit ("Task \x27t1\x27 failed. Reason: A") := by
  decide

/-- C4 (amended): when `process_execution_results` folds a batch of
delivered results in which at least one outcome has `success = false`, it
reports the batch as failed and the returned `failure_info` is the message
derived from the LAST failed task in fold order (`lastFailureMsg`); every
failure, earlier ones included, is appended to the context history, but only
the last message is surfaced. -/
theorem process_execution_results_last_failure (rs : List TaskResultM)
    (completed : List Str) (histLog : List (Str × Str)) (ctx : CtxState)
    (hfail : ∃ r ∈ rs, r.success = false) :
    ∃ fold : FoldOut,
      process_execution_results (rs.map Except.ok) completed histLog ctx = .ok fold
      ∧ fold.batch_failed = true
      ∧ fold.failure_info = lastFailureMsg [] rs
      ∧ (∀ r ∈ rs, r.success = false → failLine r ∈ fold.ctx.history) := by
  obtain ⟨fold, heq, hbf, hfi, _, hfails⟩ :=
    processResultsAux_map_ok rs completed histLog ctx false []
  refine ⟨fold, heq, ?_, hfi, hfails⟩
  rw [hbf]
  obtain ⟨r, hr, hrf⟩ := hfail
  have hany : rs.any (fun r => !r.success) = true := by
    rw [List.any_eq_true]
    exact ⟨r, hr, by simp [hrf]⟩
  simp [hany]

/-- Witness for C4 (amended) at a concrete two-failure batch. -/
theorem process_execution_results_last_failure_witness :
    ∃ fold : FoldOut,
      process_execution_results
        [Except.ok { task_id := lit ("t1"), success := false, summary := lit ("s1"),
                     output_data := none, verification_feedback := some (lit ("A")) },
         Except.ok { task_id := lit ("t2"), success := false, summary := lit ("s2"),
                     output_data := none, verification_feedback := some (lit ("B")) }]
        [] [] { history := [], artifacts := [] }
      = .ok fold
      ∧ fold.batch_failed = true
      ∧ fold.failure_info = lastFailureMsg []
          [{ task_id := lit ("t1"), success := false, summary := lit ("s1"),
             output_data := none, verification_feedback := some (lit ("A")) },
           { task_id := lit ("t2"), success := false, summary := lit ("s2"),
             output_data := none, verification_feedback := some (lit ("B")) }]
      ∧ (∀ r ∈ [({ task_id := lit ("t1"), success := false, summary := lit ("s1"),
                   output_data := none, verification_feedback := some (lit ("A")) } : TaskResultM),
                 { task_id := lit ("t2"), success := false, summary := lit ("s2"),
                   output_data := none, verification_feedback := some (lit ("B")) }],
            r.success = false → failLine r ∈ fold.ctx.history) :=
  process_execution_results_last_failure
    [{ task_id := lit ("t1"), success := false, summary := lit ("s1"),
       output_data := none, verification_feedback := some (lit ("A")) },
     { task_id := lit ("t2"), success := false, summary := lit ("s2"),
       output_data := none, verification_feedback := some (lit ("B")) }]
    [] [] { history := [], artifacts := [] } (by decide)

/-- C7: in any iteration of the scheduling loop, if the frontier (tasks not
completed whose dependencies are all completed) is empty while some task of
the current plan is not completed, the iteration fails immediately with the
deadlock error and performs no observable action at all in that iteration:
no skill execution, no backend call, no save (the event list is empty), and
the loop surfaces the error at once. -/
theorem run_task_step_deadlock (o : RunOracles) (st : SchedState)
    (hempty : st.plan.filter (isExecutable st.completed) = [])
    (hpending : ∃ t ∈ st.plan, t.id ∉ st.completed) :
    run_task_step o st = (.fail (lit ("Plan Deadlock detected.")), [])
    ∧ ∀ fuel, run_task_loop o (fuel + 1) st
        = (.error (lit ("Plan Deadlock detected.")), []) := by
  obtain ⟨t, ht, htid⟩ := hpending
  have hall : st.plan.all (fun t => decide (t.id ∈ st.completed)) = false := by
    rw [Bool.eq_false_iff]
    intro hforall
    rw [List.all_eq_true] at hforall
    exact htid (by simpa using hforall t ht)
  have hany : st.plan.any (fun t => !(decide (t.id ∈ st.completed))) = true := by
    rw [List.any_eq_true]
    exact ⟨t, ht, by simp [htid]⟩
  have hfind : find_executable_tasks st.plan st.completed
      = .error (lit ("Plan Deadlock detected.")) := by
    unfold find_executable_tasks
    simp [hempty, hany]
  have hstep : run_task_step o st = (.fail (lit ("Plan Deadlock detected.")), []) := by
    unfold run_task_step
    rw [hall]
    simp [hfind]
  exact ⟨hstep, fun fuel => by simp [run_task_loop, hstep]⟩

/-- Witness for C7: a plan whose only task depends on itself deadlocks in
the first iteration with no events. -/
theorem run_task_step_deadlock_witness :
    run_task_step oraclesTrivial stDeadlock
      = (.fail (lit ("Plan Deadlock detected.")), [])
    ∧ run_task_loop oraclesTrivial 1 stDeadlock
      = (.error (lit ("Plan Deadlock detected.")), []) :=
  ⟨(run_task_step_deadlock oraclesTrivial stDeadlock (by decide) (by decide)).1,
   (run_task_step_deadlock oraclesTrivial stDeadlock (by decide) (by decide)).2 0⟩

/-- Support: the four possible outcomes of one pass through the loop body,
each with the exact state and event list it produces. -/
theorem run_task_step_shape (o : RunOracles) (st : SchedState) :
    run_task_step o st = (.done st, [])
    ∨ (∃ e evs0, run_task_step o st = (.fail e, evs0))
    ∨ (∃ fold : FoldOut, ∃ new_tasks frontier : List SubTask,
        st.replanCount < MAX_GLOBAL_REPLANS
        ∧ run_task_step o st
            = (.next { plan := st.plan.filter (fun t => decide (t.id ∈ fold.completed))
                         ++ new_tasks,
                       completed := fold.completed, histLog := fold.histLog,
                       replanCount := st.replanCount + 1, ctx := fold.ctx,
                       iter := st.iter + 1 },
               frontier.map (fun t => Event.skillExec t.id)
                 ++ [Event.llm (lit ("replanning"))]))
    ∨ (∃ fold : FoldOut, ∃ frontier : List SubTask,
        run_task_step o st
          = (.next { st with completed := fold.completed, histLog := fold.histLog,
                             ctx := fold.ctx, iter := st.iter + 1 },
             frontier.map (fun t => Event.skillExec t.id))) := by
  by_cases hall : st.plan.all (fun t => decide (t.id ∈ st.completed)) = true
  · left
    unfold run_task_step
    rw [if_pos hall]
  · rcases hfr : find_executable_tasks st.plan st.completed with e | frontier
    · right; left
      refine ⟨e, [], ?_⟩
      unfold run_task_step
      rw [if_neg hall]
      simp [hfr]
    · rcases hpr : process_execution_results (o.batch st.iter frontier)
          st.completed st.histLog st.ctx with e | fold
      · right; left
        refine ⟨e, frontier.map (fun t => Event.skillExec t.id), ?_⟩
        unfold run_task_step
        rw [if_neg hall]
        simp [hfr, hpr]
      · by_cases hbf : fold.batch_failed = true
        · by_cases hle : MAX_GLOBAL_REPLANS ≤ st.replanCount
          · right; left
            refine ⟨lit ("Exceeded max global replanning limit. Last failure: ")
              ++ fold.failure_info, frontier.map (fun t => Event.skillExec t.id), ?_⟩
            unfold run_task_step
            rw [if_neg hall]
            simp [hfr, hpr, hbf, hle]
          · rcases hrp : o.replan st.replanCount with e | new_tasks
            · right; left
              refine ⟨e, frontier.map (fun t => Event.skillExec t.id)
                ++ [Event.llm (lit ("replanning"))], ?_⟩
              unfold run_task_step
              rw [if_neg hall]
              simp [hfr, hpr, hbf, hle, hrp]
            · right; right; left
              refine ⟨fold, new_tasks, frontier, by omega, ?_⟩
              unfold run_task_step
              rw [if_neg hall]
              simp [hfr, hpr, hbf, hle, hrp]
        · right; right; right
          refine ⟨fold, frontier, ?_⟩
          unfold run_task_step
          rw [if_neg hall]
          simp [hfr, hpr, hbf]

/-- Support: the only branch of the loop body that yields `done` is the
all-completed check, which returns the state unchanged. -/
theorem run_task_step_done_eq (o : RunOracles) (st s : SchedState) (evs : List Event)
    (h : run_task_step o st = (.done s, evs)) : s = st := by
  rcases run_task_step_shape o st with hsh | ⟨e, evs0, hsh⟩ |
      ⟨fold, new_tasks, frontier, hlt, hsh⟩ | ⟨fold, frontier, hsh⟩ <;> rw [hsh] at h
  · simp only [Prod.mk.injEq] at h
    injection h.1 with h1
    exact h1.symm
  · simp at h
  · simp at h
  · simp at h

/-- Support: a `next` transition keeps the replan counter unchanged
(successful batch) or increments it, and an increment happens only when the
counter was strictly below the budget. -/
theorem run_task_step_next_count (o : RunOracles) (st s : SchedState) (evs : List Event)
    (h : run_task_step o st = (.next s, evs)) :
    s.replanCount = st.replanCount
    ∨ (st.replanCount < MAX_GLOBAL_REPLANS ∧ s.replanCount = st.replanCount + 1) := by
  rcases run_task_step_shape o st with hsh | ⟨e, evs0, hsh⟩ |
      ⟨fold, new_tasks, frontier, hlt, hsh⟩ | ⟨fold, frontier, hsh⟩ <;> rw [hsh] at h
  · simp at h
  · simp at h
  · simp only [Prod.mk.injEq] at h
    injection h.1 with h1
    right
    exact ⟨hlt, by rw [← h1]⟩
  · simp only [Prod.mk.injEq] at h
    injection h.1 with h1
    left
    rw [← h1]

/-- Support: over any fuelled run of the scheduling loop that terminates
normally, a replan counter within budget stays within budget. -/
theorem run_task_loop_count_le (o : RunOracles) :
    ∀ (fuel : Nat) (st s : SchedState) (evs : List Event),
      st.replanCount ≤ MAX_GLOBAL_REPLANS →
      run_task_loop o fuel st = (.ok s, evs) →
      s.replanCount ≤ MAX_GLOBAL_REPLANS := by
  intro fuel
  induction fuel with
  | zero =>
    intro st s evs hle h
    simp [run_task_loop] at h
  | succ n ih =>
    intro st s evs hle h
    rw [run_task_loop] at h
    rcases hstep : run_task_step o st with ⟨out, evs0⟩
    rw [hstep] at h
    cases out with
    | done s0 =>
      simp only [Prod.mk.injEq] at h
      obtain ⟨h1, _⟩ := h
      injection h1 with h1
      rw [← h1, run_task_step_done_eq o st s0 evs0 hstep]
      exact hle
    | fail e => simp at h
    | next s0 =>
      simp only [Prod.mk.injEq] at h
      obtain ⟨h1, _⟩ := h
      have hcount : s0.replanCount ≤ MAX_GLOBAL_REPLANS := by
        rcases run_task_step_next_count o st s0 evs0 hstep with hsame | ⟨hlt, hsucc⟩
        · omega
        · omega
      exact ih s0 s (run_task_loop o n s0).2 hcount (by rw [← h1])

/-- C5: when a batch fails in the scheduling loop of `run_task` (the fold
reports `batch_failed` with message `failure_info`): if the replan counter
has already reached `MAX_GLOBAL_REPLANS = 3` the iteration fails with an
error carrying that captured message; otherwise the counter is incremented,
the replanner is invoked once (exactly one replanning backend event), and
the next plan is the completed tasks of the old plan preserved in their
original order followed by exactly the replanner output. Moreover a `next`
transition never lifts the counter above 3, and a loop that ends normally
from a within-budget state ends within budget — with the initial counter 0,
the counter never exceeds 3. -/
theorem run_task_step_batch_failure (o : RunOracles) (st : SchedState)
    (frontier : List SubTask) (fold : FoldOut)
    (hnotall : st.plan.all (fun t => decide (t.id ∈ st.completed)) = false)
    (hfr : find_executable_tasks st.plan st.completed = .ok frontier)
    (hproc : process_execution_results (o.batch st.iter frontier)
               st.completed st.histLog st.ctx = .ok fold)
    (hfailed : fold.batch_failed = true) :
    (MAX_GLOBAL_REPLANS ≤ st.replanCount →
      run_task_step o st
        = (.fail (lit ("Exceeded max global replanning limit. Last failure: ")
                    ++ fold.failure_info),
           frontier.map (fun t => Event.skillExec t.id)))
    ∧ (∀ new_tasks, st.replanCount < MAX_GLOBAL_REPLANS →
        o.replan st.replanCount = .ok new_tasks →
        run_task_step o st
          = (.next { plan := st.plan.filter (fun t => decide (t.id ∈ fold.completed))
                       ++ new_tasks,
                     completed := fold.completed, histLog := fold.histLog,
                     replanCount := st.replanCount + 1, ctx := fold.ctx,
                     iter := st.iter + 1 },
             frontier.map (fun t => Event.skillExec t.id)
               ++ [Event.llm (lit ("replanning"))]))
    ∧ (∀ (o2 : RunOracles) (st2 s2 : SchedState) (evs : List Event),
        st2.replanCount ≤ MAX_GLOBAL_REPLANS →
        run_task_step o2 st2 = (.next s2, evs) →
        s2.replanCount ≤ MAX_GLOBAL_REPLANS)
    ∧ (∀ (o2 : RunOracles) (fuel : Nat) (st2 s2 : SchedState) (evs : List Event),
        st2.replanCount ≤ MAX_GLOBAL_REPLANS →
        run_task_loop o2 fuel st2 = (.ok s2, evs) →
        s2.replanCount ≤ MAX_GLOBAL_REPLANS) := by
  refine ⟨?_, ?_, ?_, ?_⟩
  · intro hle
    unfold run_task_step
    rw [hnotall]
    simp only [Bool.false_eq_true, if_false, hfr, hproc, hfailed, if_true]
    rw [if_pos hle]
  · intro new_tasks hlt hreplan
    unfold run_task_step
    rw [hnotall]
    simp only [Bool.false_eq_true, if_false, hfr, hproc, hfailed, if_true]
    rw [if_neg (by omega), hreplan]
  · intro o2 st2 s2 evs hle hstep
    rcases run_task_step_next_count o2 st2 s2 evs hstep with hsame | ⟨hlt2, hsucc⟩
    · omega
    · omega
  · intro o2 fuel st2 s2 evs hle hloop
    exact run_task_loop_count_le o2 fuel st2 s2 evs hle hloop

/-- Witness for C5: a one-task plan whose batch fails with reason "boom",
replanner returning the same task; from counter 0 the step replans. -/
theorem run_task_step_batch_failure_witness :
    run_task_step oraclesFailingBatch stPlain
      = (.next { plan := [taskPlain], completed := [], histLog := [],
                 replanCount := 1,
                 ctx := { history :=
                            [lit ("Task [t1] FAILURE: Task \x27t1\x27 failed. Reason: boom")],
                          artifacts := [] },
                 iter := 1 },
         [Event.skillExec (lit ("t1")), Event.llm (lit ("replanning"))]) :=
  (run_task_step_batch_failure oraclesFailingBatch stPlain [taskPlain]
      { batch_failed := true,
        failure_info := lit ("Task \x27t1\x27 failed. Reason: boom"),
        completed := [], histLog := [],
        ctx := { history :=
                   [lit ("Task [t1] FAILURE: Task \x27t1\x27 failed. Reason: boom")],
                 artifacts := [] } }
      (by decide) (by decide) (by decide) (by decide)).2.1 [taskPlain]
    (by decide) (by decide)

/-- Support: batch events are skill executions only — no saves. -/
theorem countSave_skillExec (ts : List SubTask) :
    countSave (ts.map (fun t => Event.skillExec t.id)) = 0 := by
  induction ts with
  | nil => rfl
  | cons t rest ih =>
    rw [List.map_cons, ← ih]
    simp [countSave, List.filter]

/-- Support: `countSave` distributes over append. -/
theorem countSave_append (a b : List Event) :
    countSave (a ++ b) = countSave a + countSave b := by
  simp [countSave, List.filter_append]

/-- Support: a backend-call event is not a save. -/
theorem countSave_cons_llm (s : Str) (rest : List Event) :
    countSave (Event.llm s :: rest) = countSave rest := by
  simp [countSave, List.filter_cons]

/-- Support: a save event counts once. -/
theorem countSave_cons_save (rest : List Event) :
    countSave (Event.save :: rest) = countSave rest + 1 := by
  simp [countSave, List.filter_cons]

/-- Support: one pass through the scheduling loop body performs no save. -/
theorem run_task_step_no_save (o : RunOracles) (st : SchedState) :
    countSave (run_task_step o st).2 = 0 := by
  by_cases hall : st.plan.all (fun t => decide (t.id ∈ st.completed)) = true
  · unfold run_task_step
    rw [if_pos hall]
    rfl
  · rcases hfr : find_executable_tasks st.plan st.completed with e | frontier
    · unfold run_task_step
      rw [if_neg hall]
      simp [hfr, countSave]
    · rcases hpr : process_execution_results (o.batch st.iter frontier)
          st.completed st.histLog st.ctx with e | fold
      · unfold run_task_step
        rw [if_neg hall]
        simp [hfr, hpr, countSave_skillExec]
      · by_cases hbf : fold.batch_failed = true
        · by_cases hle : MAX_GLOBAL_REPLANS ≤ st.replanCount
          · unfold run_task_step
            rw [if_neg hall]
            simp [hfr, hpr, hbf, hle, countSave_skillExec]
          · rcases hrp : o.replan st.replanCount with e | new_tasks
            all_goals
              unfold run_task_step
              rw [if_neg hall]
              simp [hfr, hpr, hbf, hle, hrp, countSave_append, countSave_skillExec,
                countSave, List.filter]
        · unfold run_task_step
          rw [if_neg hall]
          simp [hfr, hpr, hbf, countSave_skillExec]

/-- Support: the whole scheduling loop performs no save. -/
theorem run_task_loop_no_save (o : RunOracles) :
    ∀ (fuel : Nat) (st : SchedState), countSave (run_task_loop o fuel st).2 = 0 := by
  intro fuel
  induction fuel with
  | zero => intro st; rfl
  | succ n ih =>
    intro st
    rw [run_task_loop]
    rcases hstep : run_task_step o st with ⟨out, evs0⟩
    have hevs0 : countSave evs0 = 0 := by
      have := run_task_step_no_save o st
      rw [hstep] at this
      exact this
    cases out with
    | done s => exact hevs0
    | fail e => exact hevs0
    | next s =>
      simp only
      rw [countSave_append, hevs0, ih s]

/-- Support: lifted core events contain no save. -/
theorem countSave_liftCore (evs : List CoreEvent) :
    countSave (evs.map liftCoreEvent) = 0 := by
  induction evs with
  | nil => rfl
  | cons e rest ih => cases e <;> simpa [countSave, List.filter, liftCoreEvent] using ih

/-- C1 (counterexample): `run_task` on the exit path where planning fails to
parse returns the error with ZERO `ContextStore::save` events, while the
claim demands exactly one save on every exit path of `run_task` and
`run_debate`. -/
theorem run_task_save_missing_counterexample :
    (run_task oraclesPlanFails (lit ("go")) 1).1 = .error (lit ("PlanParseError"))
    ∧ countSave (run_task oraclesPlanFails (lit ("go")) 1).2 = 0 := by
  decide

/-- C1 (amended): `run_debate` saves the context exactly once on every exit
path (its wrapper saves after the core, whatever the core returned), while
`run_task` saves exactly once on its success path and zero times on every
error path (planning/review parse failure, deadlock, batch-fold error,
replan budget exceeded, replanner parse failure, synthesis parse failure),
because its single `persist_context` call sits after the synthesis stage. -/
theorem run_save_discipline :
    (∀ core : Except Err Json × List CoreEvent, countSave (run_debate core).2 = 1)
    ∧ (∀ (o : RunOracles) (instruction : Str) (fuel : Nat),
        ((∃ j, (run_task o instruction fuel).1 = .ok j) →
          countSave (run_task o instruction fuel).2 = 1)
        ∧ (∀ e, (run_task o instruction fuel).1 = .error e →
            countSave (run_task o instruction fuel).2 = 0)) := by
  constructor
  · intro core
    unfold run_debate
    rw [countSave_append, countSave_liftCore]
    rfl
  · intro o instruction fuel
    rcases hplan : o.plan with e | initial_plan
    · have hrt : run_task o instruction fuel
          = (.error e, [Event.llm (lit ("planning"))]) := by
        simp only [run_task, hplan]
      rw [hrt]
      exact ⟨fun h => by obtain ⟨j, hj⟩ := h; simp at hj, fun e2 h2 => rfl⟩
    · rcases hrev : o.review initial_plan with e | plan
      · have hrt : run_task o instruction fuel
            = (.error e, [Event.llm (lit ("planning")), Event.llm (lit ("review"))]) := by
          simp only [run_task, hplan, hrev]
        rw [hrt]
        exact ⟨fun h => by obtain ⟨j, hj⟩ := h; simp at hj, fun e2 h2 => rfl⟩
      · rcases hloop : run_task_loop o fuel (initState instruction plan) with ⟨res, evs⟩
        have hevs : countSave evs = 0 := by
          have := run_task_loop_no_save o fuel (initState instruction plan)
          rw [hloop] at this
          exact this
        cases res with
        | error e =>
          have hrt : run_task o instruction fuel
              = (.error e,
                 [Event.llm (lit ("planning")), Event.llm (lit ("review"))] ++ evs) := by
            simp only [run_task, hplan, hrev, hloop]
          rw [hrt]
          refine ⟨fun h => by obtain ⟨j, hj⟩ := h; simp at hj, fun e2 h2 => ?_⟩
          simp only [countSave_append, countSave_cons_llm, hevs]
          rfl
        | ok sfin =>
          rcases hsyn : o.synthesis with e | out
          · have hrt : run_task o instruction fuel
                = (.error e,
                   ([Event.llm (lit ("planning")), Event.llm (lit ("review"))] ++ evs)
                     ++ [Event.llm (lit ("synthesis"))]) := by
              simp only [run_task, hplan, hrev, hloop, hsyn]
            rw [hrt]
            refine ⟨fun h => by obtain ⟨j, hj⟩ := h; simp at hj, fun e2 h2 => ?_⟩
            simp only [countSave_append, countSave_cons_llm, hevs]
            rfl
          · have hrt : run_task o instruction fuel
                = (.ok out,
                   ([Event.llm (lit ("planning")), Event.llm (lit ("review"))] ++ evs)
                     ++ [Event.llm (lit ("synthesis")), Event.save]) := by
              simp only [run_task, hplan, hrev, hloop, hsyn]
            rw [hrt]
            refine ⟨fun _ => ?_, fun e2 h2 => by simp at h2⟩
            simp only [countSave_append, countSave_cons_llm, countSave_cons_save, hevs]
            rfl

/-- Witness for C1 (amended): a successful trivial run saves once, and a
debate run saves once whatever its core did. -/
theorem run_save_discipline_witness :
    countSave (run_task oraclesTrivial (lit ("go")) 1).2 = 1
    ∧ countSave (run_debate (.ok Json.null, [])).2 = 1 :=
  ⟨(run_save_discipline.2 oraclesTrivial (lit ("go")) 1).1 ⟨Json.null, by decide⟩,
   run_save_discipline.1 (.ok Json.null, [])⟩

/-- Support: the reflection stage leaves the recorded failure reason
untouched. -/
theorem reflectStep_last_failure (o : PipelineOracles) (n : Nat) (st : PipeSt) :
    (reflectStep o n st).1.last_failure_reason = st.last_failure_reason := by
  unfold reflectStep
  split
  · rcases o.reflect n with e | r3
    · rfl
    · rcases r3 with ⟨a, b, c⟩
      rfl
  · rfl

/-- Support: the reflection stage emits at most its own reflect event, and
only while the attempt index is below the retry bound. -/
theorem reflectStep_events (o : PipelineOracles) (n : Nat) (st : PipeSt) :
    ∀ ev ∈ (reflectStep o n st).2, ev = PipeEvent.reflect n ∧ n < max_retries := by
  intro ev hev
  by_cases hlt : n < max_retries
  · rcases hr : o.reflect n with e | r3
    · rw [show (reflectStep o n st).2 = [PipeEvent.reflect n] from by
        unfold reflectStep
        rw [if_pos hlt, hr]] at hev
      simp at hev
      exact ⟨hev, hlt⟩
    · rcases r3 with ⟨a, b, c⟩
      rw [show (reflectStep o n st).2 = [PipeEvent.reflect n] from by
        unfold reflectStep
        rw [if_pos hlt, hr]] at hev
      simp at hev
      exact ⟨hev, hlt⟩
  · rw [show (reflectStep o n st).2 = [] from by
      unfold reflectStep
      rw [if_neg hlt]] at hev
    simp at hev

/-- Support: a reflect event never changes the recorded failure fold. -/
theorem lastFailRec_reflect (init : Str) (n : Nat) :
    ∀ evs2 : List PipeEvent,
      (∀ ev ∈ evs2, ev = PipeEvent.reflect n ∧ n < max_retries) →
      ∀ evs3, lastFailRec init (evs2 ++ evs3) = lastFailRec init evs3 := by
  intro evs2 h2 evs3
  induction evs2 with
  | nil => rfl
  | cons e rest ih =>
    have he := h2 e (by simp)
    rw [he.1]
    simp only [List.cons_append]
    rw [show lastFailRec init (PipeEvent.reflect n :: (rest ++ evs3))
        = lastFailRec init (rest ++ evs3) from rfl]
    exact ih (fun ev hev => h2 ev (by simp [hev]))

/-- Support: the pipeline retry loop executes at most one skill call per
remaining attempt. -/
theorem runAttempts_execCount (skills : List Str) (o : PipelineOracles) (task : SubTask) :
    ∀ (l : List Nat) (st : PipeSt),
      ((runAttempts skills o task l st).2.filter isExecEvent).length ≤ l.length := by
  intro l
  induction l with
  | nil =>
    intro st
    simp [runAttempts]
  | cons n rest ih =>
    intro st
    by_cases hmem : st.current_skill_name ∈ skills
    · rcases hexec : o.exec n with e | res
      · rcases hrs : reflectStep o n { st with last_failure_reason := lit ("Runtime Error: ") ++ e }
            with ⟨st2, evs2⟩
        have h2 : (evs2.filter isExecEvent).length = 0 := by
          rcases reflectStep_events o n { st with last_failure_reason := lit ("Runtime Error: ") ++ e }
            with h
          rw [hrs] at h
          simp only [List.length_eq_zero, List.filter_eq_nil_iff]
          intro ev hev
          rw [(h ev hev).1]
          simp [isExecEvent]
        simp only [runAttempts, hmem, decide_True, decide_eq_true_eq, if_true, hexec, hrs]
        simp only [List.filter_cons, List.filter_append, isExecEvent, List.length_append]
        rw [List.length_eq_zero.mp h2]
        simpa using ih st2
      · rcases hver : o.verify n with e | vres
        · simp [runAttempts, hmem, hexec, hver, isExecEvent, List.filter]
        · rcases vres with ⟨passed, vmsg⟩
          by_cases hp : passed = true
          · simp [runAttempts, hmem, hexec, hver, hp, isExecEvent, List.filter]
          · replace hp : passed = false := by
              cases h : passed
              · rfl
              · exact absurd h hp
            rcases hrs : reflectStep o n { st with last_failure_reason := vmsg }
                with ⟨st2, evs2⟩
            have h2 : (evs2.filter isExecEvent).length = 0 := by
              have h := reflectStep_events o n { st with last_failure_reason := vmsg }
              rw [hrs] at h
              simp only [List.length_eq_zero, List.filter_eq_nil_iff]
              intro ev hev
              rw [(h ev hev).1]
              simp [isExecEvent]
            simp only [runAttempts, hmem, decide_True, decide_eq_true_eq, if_true, hexec, hver, hp,
              Bool.false_eq_true, if_false, hrs]
            simp only [List.filter_cons, List.filter_append, isExecEvent, List.length_append]
            rw [List.length_eq_zero.mp h2]
            simpa using ih st2
    · simp [runAttempts, hmem]

/-- Support: every reflect event of the pipeline retry loop has its attempt
index strictly below the retry bound. -/
theorem runAttempts_reflect_lt (skills : List Str) (o : PipelineOracles) (task : SubTask) :
    ∀ (l : List Nat) (st : PipeSt) (n : Nat),
      PipeEvent.reflect n ∈ (runAttempts skills o task l st).2 → n < max_retries := by
  intro l
  induction l with
  | nil =>
    intro st n h
    simp [runAttempts] at h
  | cons m rest ih =>
    intro st n h
    by_cases hmem : st.current_skill_name ∈ skills
    · rcases hexec : o.exec m with e | res
      · rcases hrs : reflectStep o m { st with last_failure_reason := lit ("Runtime Error: ") ++ e }
            with ⟨st2, evs2⟩
        rw [show runAttempts skills o task (m :: rest) st
            = ((runAttempts skills o task rest st2).1,
               PipeEvent.exec m :: PipeEvent.failRec (lit ("Runtime Error: ") ++ e)
                 :: (evs2 ++ (runAttempts skills o task rest st2).2)) from by
          simp [runAttempts, hmem, hexec, hrs]] at h
        simp only [List.mem_cons, List.mem_append] at h
        rcases h with h | h | h | h
        · cases h
        · cases h
        · have hre := reflectStep_events o m
            { st with last_failure_reason := lit ("Runtime Error: ") ++ e }
          rw [hrs] at hre
          have := hre _ h
          rw [show n = m from by injection this.1]
          exact this.2
        · exact ih st2 n h
      · rcases hver : o.verify m with e | vres
        · rw [show runAttempts skills o task (m :: rest) st
              = (.error e, [PipeEvent.exec m]) from by
            simp [runAttempts, hmem, hexec, hver]] at h
          simp at h
        · rcases vres with ⟨passed, vmsg⟩
          by_cases hp : passed = true
          · rw [show runAttempts skills o task (m :: rest) st
                = (.ok { task_id := task.id, success := true, summary := res.summary,
                         output_data := res.data, verification_feedback := none },
                   [PipeEvent.exec m]) from by
              simp [runAttempts, hmem, hexec, hver, hp]] at h
            simp at h
          · replace hp : passed = false := by
              cases hq : passed
              · rfl
              · exact absurd hq hp
            rcases hrs : reflectStep o m { st with last_failure_reason := vmsg }
                with ⟨st2, evs2⟩
            rw [show runAttempts skills o task (m :: rest) st
                = ((runAttempts skills o task rest st2).1,
                   PipeEvent.exec m :: PipeEvent.failRec vmsg
                     :: (evs2 ++ (runAttempts skills o task rest st2).2)) from by
              simp [runAttempts, hmem, hexec, hver, hp, hrs]] at h
            simp only [List.mem_cons, List.mem_append] at h
            rcases h with h | h | h | h
            · cases h
            · cases h
            · have hre := reflectStep_events o m { st with last_failure_reason := vmsg }
              rw [hrs] at hre
              have := hre _ h
              rw [show n = m from by injection this.1]
              exact this.2
            · exact ih st2 n h
    · rw [show runAttempts skills o task (m :: rest) st
          = (.ok { task_id := task.id, success := false,
                   summary := lit ("Skill \x27") ++ st.current_skill_name
                     ++ lit ("\x27 not found"),
                   output_data := none, verification_feedback := none }, []) from by
        simp [runAttempts, hmem]] at h
      simp at h

/-- Support: when the retry loop returns an outcome carrying feedback, that
outcome is the retries-exhausted one: it is unsuccessful and its feedback is
the last failure reason recorded along the trace. -/
theorem runAttempts_feedback (skills : List Str) (o : PipelineOracles) (task : SubTask) :
    ∀ (l : List Nat) (st : PipeSt) (tr : TaskResultM) (fb : Str),
      (runAttempts skills o task l st).1 = .ok tr →
      tr.verification_feedback = some fb →
      tr.success = false
      ∧ fb = lastFailRec st.last_failure_reason (runAttempts skills o task l st).2 := by
  intro l
  induction l with
  | nil =>
    intro st tr fb h1 h2
    rw [show (runAttempts skills o task [] st).1
        = Except.ok { task_id := task.id, success := false,
                      summary := lit ("Retries exhausted. Last error: ")
                        ++ st.last_failure_reason,
                      output_data := none,
                      verification_feedback := some st.last_failure_reason } from rfl] at h1
    injection h1 with h1
    rw [← h1] at h2
    simp only [Option.some.injEq] at h2
    refine ⟨by rw [← h1], ?_⟩
    rw [← h2]
    rfl
  | cons m rest ih =>
    intro st tr fb h1 h2
    by_cases hmem : st.current_skill_name ∈ skills
    · rcases hexec : o.exec m with e | res
      · rcases hrs : reflectStep o m { st with last_failure_reason := lit ("Runtime Error: ") ++ e }
            with ⟨st2, evs2⟩
        have hshape : runAttempts skills o task (m :: rest) st
            = ((runAttempts skills o task rest st2).1,
               PipeEvent.exec m :: PipeEvent.failRec (lit ("Runtime Error: ") ++ e)
                 :: (evs2 ++ (runAttempts skills o task rest st2).2)) := by
          simp [runAttempts, hmem, hexec, hrs]
        rw [hshape] at h1
        obtain ⟨hsucc, hfb⟩ := ih st2 tr fb h1 h2
        have hst2 : st2.last_failure_reason = lit ("Runtime Error: ") ++ e := by
          have h := reflectStep_last_failure o m
            { st with last_failure_reason := lit ("Runtime Error: ") ++ e }
          rw [hrs] at h
          exact h
        have hre := reflectStep_events o m
          { st with last_failure_reason := lit ("Runtime Error: ") ++ e }
        rw [hrs] at hre
        refine ⟨hsucc, ?_⟩
        rw [hshape]
        rw [show lastFailRec st.last_failure_reason
            (PipeEvent.exec m :: PipeEvent.failRec (lit ("Runtime Error: ") ++ e)
              :: (evs2 ++ (runAttempts skills o task rest st2).2))
            = lastFailRec (lit ("Runtime Error: ") ++ e)
                (evs2 ++ (runAttempts skills o task rest st2).2) from rfl]
        rw [lastFailRec_reflect (lit ("Runtime Error: ") ++ e) m evs2 hre]
        rw [hfb, hst2]
      · rcases hver : o.verify m with e | vres
        · have hshape : (runAttempts skills o task (m :: rest) st).1 = .error e := by
            simp [runAttempts, hmem, hexec, hver]
          rw [hshape] at h1
          cases h1
        · rcases vres with ⟨passed, vmsg⟩
          by_cases hp : passed = true
          · have hshape : (runAttempts skills o task (m :: rest) st).1
                = .ok { task_id := task.id, success := true, summary := res.summary,
                        output_data := res.data, verification_feedback := none } := by
              simp [runAttempts, hmem, hexec, hver, hp]
            rw [hshape] at h1
            injection h1 with h1
            rw [← h1] at h2
            cases h2
          · replace hp : passed = false := by
              cases hq : passed
              · rfl
              · exact absurd hq hp
            rcases hrs : reflectStep o m { st with last_failure_reason := vmsg }
                with ⟨st2, evs2⟩
            have hshape : runAttempts skills o task (m :: rest) st
                = ((runAttempts skills o task rest st2).1,
                   PipeEvent.exec m :: PipeEvent.failRec vmsg
                     :: (evs2 ++ (runAttempts skills o task rest st2).2)) := by
              simp [runAttempts, hmem, hexec, hver, hp, hrs]
            rw [hshape] at h1
            obtain ⟨hsucc, hfb⟩ := ih st2 tr fb h1 h2
            have hst2 : st2.last_failure_reason = vmsg := by
              have h := reflectStep_last_failure o m { st with last_failure_reason := vmsg }
              rw [hrs] at h
              exact h
            have hre := reflectStep_events o m { st with last_failure_reason := vmsg }
            rw [hrs] at hre
            refine ⟨hsucc, ?_⟩
            rw [hshape]
            rw [show lastFailRec st.last_failure_reason
                (PipeEvent.exec m :: PipeEvent.failRec vmsg
                  :: (evs2 ++ (runAttempts skills o task rest st2).2))
                = lastFailRec vmsg (evs2 ++ (runAttempts skills o task rest st2).2) from rfl]
            rw [lastFailRec_reflect vmsg m evs2 hre]
            rw [hfb, hst2]
    · have hshape : (runAttempts skills o task (m :: rest) st).1
          = .ok { task_id := task.id, success := false,
                  summary := lit ("Skill \x27") ++ st.current_skill_name
                    ++ lit ("\x27 not found"),
                  output_data := none, verification_feedback := none } := by
        simp [runAttempts, hmem]
      rw [hshape] at h1
      injection h1 with h1
      rw [← h1] at h2
      cases h2

/-- C6: the task pipeline performs at most `max_retries + 1 = 3` attempts
(skill executions); reflection is invoked only for attempt indices strictly
below `max_retries = 2`, so after the third failed attempt no further
reflection occurs; and whenever the pipeline result carries feedback (the
retries-exhausted outcome), it is unsuccessful and the feedback equals the
last recorded failure reason of the run. -/
theorem execute_task_pipeline_budget (skills : List Str) (o : PipelineOracles)
    (task : SubTask) (artifacts : Artifacts) :
    max_retries = 2
    ∧ ((execute_task_pipeline skills o task artifacts).2.filter isExecEvent).length ≤ 3
    ∧ (∀ n, PipeEvent.reflect n ∈ (execute_task_pipeline skills o task artifacts).2 → n < 2)
    ∧ (∀ tr fb, (execute_task_pipeline skills o task artifacts).1 = .ok tr →
        tr.verification_feedback = some fb →
        tr.success = false
        ∧ fb = lastFailRec [] (execute_task_pipeline skills o task artifacts).2) := by
  refine ⟨rfl, ?_, ?_, ?_⟩
  · have h := runAttempts_execCount skills o task (List.range (max_retries + 1))
      { current_skill_name := task.skill_name,
        current_params := resolve_params_deep task.params artifacts,
        last_failure_reason := [] }
    simpa [execute_task_pipeline] using h
  · intro n h
    have := runAttempts_reflect_lt skills o task (List.range (max_retries + 1))
      { current_skill_name := task.skill_name,
        current_params := resolve_params_deep task.params artifacts,
        last_failure_reason := [] } n h
    simpa [max_retries] using this
  · intro tr fb h1 h2
    exact runAttempts_feedback skills o task (List.range (max_retries + 1))
      { current_skill_name := task.skill_name,
        current_params := resolve_params_deep task.params artifacts,
        last_failure_reason := [] } tr fb h1 h2

/-- Witness for C6: three failing attempts with last vote reason "b2"; the
outcome is unsuccessful and its feedback is the last recorded reason. -/
theorem execute_task_pipeline_budget_witness :
    ({ task_id := lit ("t1"), success := false,
       summary := lit ("Retries exhausted. Last error: b2"),
       output_data := none,
       verification_feedback := some (lit ("b2")) } : TaskResultM).success = false
    ∧ lit ("b2") = lastFailRec [] (execute_task_pipeline [lit ("s")] pipeOracles pipeTask []).2 :=
  (execute_task_pipeline_budget [lit ("s")] pipeOracles pipeTask []).2.2.2
    { task_id := lit ("t1"), success := false,
      summary := lit ("Retries exhausted. Last error: b2"),
      output_data := none, verification_feedback := some (lit ("b2")) }
    (lit ("b2")) (by decide) (by decide)

/-- Support: the list recursor of the deep walk is a map. -/
theorem resolveL_eq_map (a : Artifacts) :
    ∀ xs : List Json, resolveL xs a = xs.map (fun x => resolve_params_deep x a)
  | [] => rfl
  | x :: rest => by
    simp only [resolveL, List.map_cons]
    rw [resolveL_eq_map a rest]

/-- Support: the object recursor of the deep walk maps over the values. -/
theorem resolveO_eq_map (a : Artifacts) :
    ∀ kvs : List (Str × Json),
      resolveO kvs a = kvs.map (fun kv => (kv.1, resolve_params_deep kv.2 a))
  | [] => rfl
  | (k, v) :: rest => by
    simp only [resolveO, List.map_cons]
    rw [resolveO_eq_map a rest]

/-- C8: behaviour of `resolve_params_deep`. The concrete law of the spec
holds: with `artifacts[t1] = {r: 5}` the tree `{a: "{{t1.r}}", b:
["{{t1.r}}"]}` resolves to `{a: 5, b: [5]}`, and an array artifact is
indexed by a numeric segment under the Rust integer-parse syntax (a leading
`+` sign included: `"{{t1.+0}}"` hits element 0). In general a string whose
bracketed content splits into `head.seg1...segn` is replaced by the value
reached from `artifacts[head]` by walking the segments as object keys or
numeric array indices; on any lookup miss, and for any string that is not
fully bracketed (references mixed with other text included), the original
string is preserved; numbers, booleans and null pass through; arrays and
objects are resolved element-wise. -/
theorem resolve_params_deep_spec :
    resolve_params_deep
        (Json.obj [(lit ("a"), Json.str (lit ("\x7b\x7bt1.r\x7d\x7d"))),
                   (lit ("b"), Json.arr [Json.str (lit ("\x7b\x7bt1.r\x7d\x7d"))])])
        [(lit ("t1"), Json.obj [(lit ("r"), Json.num 5)])]
      = Json.obj [(lit ("a"), Json.num 5), (lit ("b"), Json.arr [Json.num 5])]
    ∧ resolve_params_deep (Json.str (lit ("\x7b\x7bt1.+0\x7d\x7d")))
        [(lit ("t1"), Json.arr [Json.num 7])]
      = Json.num 7
    ∧ (∀ (s : Str) (artifacts : Artifacts) (task_id : Str) (path : List Str)
          (root v : Json),
        startsWithL (lit ("\x7b\x7b")) s = true →
        endsWithL (lit ("\x7d\x7d")) s = true →
        splitOnC '.' (trimL ((s.drop 2).take (s.length - 4))) = task_id :: path →
        lookupA artifacts task_id = some root →
        walkPath root path = some v →
        resolve_params_deep (Json.str s) artifacts = v)
    ∧ (∀ (s : Str) (artifacts : Artifacts),
        resolveRef s artifacts = none →
        resolve_params_deep (Json.str s) artifacts = Json.str s)
    ∧ (∀ (s : Str) (artifacts : Artifacts),
        (startsWithL (lit ("\x7b\x7b")) s && endsWithL (lit ("\x7d\x7d")) s) = false →
        resolve_params_deep (Json.str s) artifacts = Json.str s)
    ∧ (∀ (artifacts : Artifacts) (n : Int),
        resolve_params_deep (Json.num n) artifacts = Json.num n)
    ∧ (∀ (artifacts : Artifacts) (b : Bool),
        resolve_params_deep (Json.bool b) artifacts = Json.bool b)
    ∧ (∀ artifacts : Artifacts, resolve_params_deep Json.null artifacts = Json.null)
    ∧ (∀ (artifacts : Artifacts) (xs : List Json),
        resolve_params_deep (Json.arr xs) artifacts
          = Json.arr (xs.map (fun x => resolve_params_deep x artifacts)))
    ∧ (∀ (artifacts : Artifacts) (kvs : List (Str × Json)),
        resolve_params_deep (Json.obj kvs) artifacts
          = Json.obj (kvs.map (fun kv => (kv.1, resolve_params_deep kv.2 artifacts)))) := by
  refine ⟨by decide, by decide, ?_, ?_, ?_, fun _ _ => rfl, fun _ _ => rfl, fun _ => rfl, ?_, ?_⟩
  · intro s artifacts task_id path root v h1 h2 h3 h4 h5
    have hr : resolveRef s artifacts = some v := by
      unfold resolveRef
      rw [h1, h2]
      simp only [Bool.and_self, if_true, h3, h4, h5]
    simp only [resolve_params_deep, hr]
  · intro s artifacts h
    simp only [resolve_params_deep, h]
  · intro s artifacts h
    have hr : resolveRef s artifacts = none := by
      unfold resolveRef
      rw [h]
      simp
    simp only [resolve_params_deep, hr]
  · intro artifacts xs
    simp only [resolve_params_deep]
    rw [resolveL_eq_map]
  · intro artifacts kvs
    simp only [resolve_params_deep]
    rw [resolveO_eq_map]

/-- Witness for C8: the general replacement clause at `{{t1.r}}` against
`artifacts[t1] = {r: 5}`. -/
theorem resolve_params_deep_spec_witness :
    resolve_params_deep (Json.str (lit ("\x7b\x7bt1.r\x7d\x7d")))
        [(lit ("t1"), Json.obj [(lit ("r"), Json.num 5)])]
      = Json.num 5 :=
  resolve_params_deep_spec.2.2.1 (lit ("\x7b\x7bt1.r\x7d\x7d"))
    [(lit ("t1"), Json.obj [(lit ("r"), Json.num 5)])]
    (lit ("t1")) [lit ("r")] (Json.obj [(lit ("r"), Json.num 5)]) (Json.num 5)
    (by decide) (by decide) (by decide) (by decide) (by decide)

/-- Support: membership in a reference-free list gives a reference-free
element. -/
theorem refFreeL_mem : ∀ (xs : List Json), refFreeL xs = true →
    ∀ x ∈ xs, refFree x = true
  | [], _, x, hx => by cases hx
  | y :: rest, h, x, hx => by
    have h' : refFree y = true ∧ refFreeL rest = true := by
      simpa [refFreeL, Bool.and_eq_true] using h
    cases hx with
    | head => exact h'.1
    | tail _ htail => exact refFreeL_mem rest h'.2 x htail

/-- Support: object lookup in a reference-free object yields a
reference-free value. -/
theorem refFreeO_lookup : ∀ (kvs : List (Str × Json)), refFreeO kvs = true →
    ∀ (k : Str) (v : Json), lookupObj kvs k = some v → refFree v = true
  | [], _, k, v, h => by cases h
  | (k1, v1) :: rest, hf, k, v, h => by
    have h' : refFree v1 = true ∧ refFreeO rest = true := by
      simpa [refFreeO, Bool.and_eq_true] using hf
    by_cases hk : k1 = k
    · rw [show lookupObj ((k1, v1) :: rest) k = some v1 from by simp [lookupObj, hk]] at h
      injection h with h
      rw [← h]
      exact h'.1
    · rw [show lookupObj ((k1, v1) :: rest) k = lookupObj rest k from by
        simp [lookupObj, hk]] at h
      exact refFreeO_lookup rest h'.2 k v h

/-- Support: the path walk never leaves the reference-free fragment. -/
theorem walkPath_refFree : ∀ (path : List Str) (root v : Json),
    refFree root = true → walkPath root path = some v → refFree v = true := by
  intro path
  induction path with
  | nil =>
    intro root v hf h
    cases root <;> (injection h with h; rw [← h]; exact hf)
  | cons f rest ih =>
    intro root v hf h
    cases root with
    | obj kvs =>
      rcases hlo : lookupObj kvs f with _ | w
      · rw [show walkPath (Json.obj kvs) (f :: rest) = none from by
          simp [walkPath, hlo]] at h
        cases h
      · rw [show walkPath (Json.obj kvs) (f :: rest) = walkPath w rest from by
          simp [walkPath, hlo]] at h
        exact ih w v (refFreeO_lookup kvs (by simpa [refFree] using hf) f w hlo) h
    | arr xs =>
      rcases hpi : parseUsize f with _ | i
      · rw [show walkPath (Json.arr xs) (f :: rest) = none from by
          simp [walkPath, hpi]] at h
        cases h
      · rcases hget : xs.get? i with _ | w
        · rw [show walkPath (Json.arr xs) (f :: rest) = none from by
            simp only [walkPath, hpi]
            rw [hget]] at h
          cases h
        · rw [show walkPath (Json.arr xs) (f :: rest) = walkPath w rest from by
            simp only [walkPath, hpi]
            rw [hget]] at h
          have hw : refFree w = true :=
            refFreeL_mem xs (by simpa [refFree] using hf) w (List.get?_mem hget)
          exact ih w v hw h
    | null => cases h
    | bool b => cases h
    | num n => cases h
    | str s => cases h

/-- Support: artifact lookup in a reference-free artifact map yields a
reference-free root. -/
theorem lookupA_refFree : ∀ (a : Artifacts),
    (∀ kv ∈ a, refFree kv.2 = true) →
    ∀ (k : Str) (root : Json), lookupA a k = some root → refFree root = true
  | [], _, k, root, h => by cases h
  | (k1, v1) :: rest, ha, k, root, h => by
    by_cases hk : k1 = k
    · rw [show lookupA ((k1, v1) :: rest) k = some v1 from by simp [lookupA, hk]] at h
      injection h with h
      rw [← h]
      exact ha (k1, v1) (by simp)
    · rw [show lookupA ((k1, v1) :: rest) k = lookupA rest k from by simp [lookupA, hk]] at h
      exact lookupA_refFree rest (fun kv hkv => ha kv (by simp [hkv])) k root h

/-- Support: a successful reference resolution against a reference-free
artifact map returns a reference-free value. -/
theorem resolveRef_refFree (a : Artifacts) (ha : ∀ kv ∈ a, refFree kv.2 = true)
    (s : Str) (v : Json) (h : resolveRef s a = some v) : refFree v = true := by
  unfold resolveRef at h
  split at h
  · simp only [] at h
    rcases hsp : splitOnC '.' (trimL ((s.drop 2).take (s.length - 4))) with _ | ⟨tid, path⟩
    · rw [hsp] at h
      exact Option.noConfusion h
    · rw [hsp] at h
      have h2 : (match lookupA a tid with
          | some root_val => walkPath root_val path
          | none => none) = some v := h
      rcases hla : lookupA a tid with _ | root
      · rw [hla] at h2
        cases h2
      · rw [hla] at h2
        exact walkPath_refFree path root v (lookupA_refFree a ha tid root hla) h2
  · cases h

mutual

/-- Support: resolution is the identity on reference-free trees. -/
theorem refFree_resolve_id : ∀ t : Json, refFree t = true →
    ∀ a : Artifacts, resolve_params_deep t a = t
  | .null, _, _ => rfl
  | .bool _, _, _ => rfl
  | .num _, _, _ => rfl
  | .str s, h, a => by
    have hc : (startsWithL (lit ("\x7b\x7b")) s
        && endsWithL (lit ("\x7d\x7d")) s) = false := by
      cases hAB : (startsWithL (lit ("\x7b\x7b")) s && endsWithL (lit ("\x7d\x7d")) s)
      · rfl
      · rw [show refFree (Json.str s)
            = !(startsWithL (lit ("\x7b\x7b")) s && endsWithL (lit ("\x7d\x7d")) s)
            from rfl, hAB] at h
        cases h
    have hr : resolveRef s a = none := by
      unfold resolveRef
      rw [hc]
      simp
    simp only [resolve_params_deep, hr]
  | .arr xs, h, a => by
    simp only [resolve_params_deep]
    rw [refFreeL_resolve_id xs (by simpa [refFree] using h) a]
  | .obj kvs, h, a => by
    simp only [resolve_params_deep]
    rw [refFreeO_resolve_id kvs (by simpa [refFree] using h) a]

theorem refFreeL_resolve_id : ∀ xs : List Json, refFreeL xs = true →
    ∀ a : Artifacts, resolveL xs a = xs
  | [], _, _ => rfl
  | x :: rest, h, a => by
    have h' : refFree x = true ∧ refFreeL rest = true := by
      simpa [refFreeL, Bool.and_eq_true] using h
    simp only [resolveL]
    rw [refFree_resolve_id x h'.1 a, refFreeL_resolve_id rest h'.2 a]

theorem refFreeO_resolve_id : ∀ kvs : List (Str × Json), refFreeO kvs = true →
    ∀ a : Artifacts, resolveO kvs a = kvs
  | [], _, _ => rfl
  | (k, v) :: rest, h, a => by
    have h' : refFree v = true ∧ refFreeO rest = true := by
      simpa [refFreeO, Bool.and_eq_true] using h
    simp only [resolveO]
    rw [refFree_resolve_id v h'.1 a, refFreeO_resolve_id rest h'.2 a]

end

mutual

/-- Support: against a reference-free artifact snapshot, resolving twice is
resolving once. -/
theorem resolve_idem (a : Artifacts) (ha : ∀ kv ∈ a, refFree kv.2 = true) :
    ∀ t : Json, resolve_params_deep (resolve_params_deep t a) a = resolve_params_deep t a
  | .null => rfl
  | .bool _ => rfl
  | .num _ => rfl
  | .str s => by
    rcases hr : resolveRef s a with _ | v
    · simp only [resolve_params_deep, hr]
    · simp only [resolve_params_deep, hr]
      exact refFree_resolve_id v (resolveRef_refFree a ha s v hr) a
  | .arr xs => by
    simp only [resolve_params_deep]
    rw [resolveL_idem a ha xs]
  | .obj kvs => by
    simp only [resolve_params_deep]
    rw [resolveO_idem a ha kvs]

theorem resolveL_idem (a : Artifacts) (ha : ∀ kv ∈ a, refFree kv.2 = true) :
    ∀ xs : List Json, resolveL (resolveL xs a) a = resolveL xs a
  | [] => rfl
  | x :: rest => by
    simp only [resolveL]
    rw [resolve_idem a ha x, resolveL_idem a ha rest]

theorem resolveO_idem (a : Artifacts) (ha : ∀ kv ∈ a, refFree kv.2 = true) :
    ∀ kvs : List (Str × Json), resolveO (resolveO kvs a) a = resolveO kvs a
  | [] => rfl
  | (k, v) :: rest => by
    simp only [resolveO]
    rw [resolve_idem a ha v, resolveO_idem a ha rest]

end

/-- C9 (counterexample): idempotence fails when an artifact value is itself
a reference string. With `artifacts = {t1: "{{t2}}", t2: 5}`, resolving
`"{{t1}}"` once yields the string `"{{t2}}"`, and resolving a second time
against the same snapshot yields `5`. -/
theorem resolve_params_deep_idem_counterexample :
    resolve_params_deep
        (resolve_params_deep (Json.str (lit ("\x7b\x7bt1\x7d\x7d")))
          [(lit ("t1"), Json.str (lit ("\x7b\x7bt2\x7d\x7d"))), (lit ("t2"), Json.num 5)])
        [(lit ("t1"), Json.str (lit ("\x7b\x7bt2\x7d\x7d"))), (lit ("t2"), Json.num 5)]
      ≠ resolve_params_deep (Json.str (lit ("\x7b\x7bt1\x7d\x7d")))
          [(lit ("t1"), Json.str (lit ("\x7b\x7bt2\x7d\x7d"))), (lit ("t2"), Json.num 5)] := by
  decide

/-- C9 (amended): resolution is the identity on trees containing no
reference string, and — provided no value stored in the artifact snapshot
contains a reference string — resolving twice against the same snapshot
equals resolving once. (Without that proviso idempotence fails: a resolved
artifact value that is itself a reference is resolved again by the second
pass, as the counterexample shows.) -/
theorem resolve_params_deep_idempotent :
    (∀ (artifacts : Artifacts) (t : Json), refFree t = true →
        resolve_params_deep t artifacts = t)
    ∧ (∀ artifacts : Artifacts, (∀ kv ∈ artifacts, refFree kv.2 = true) →
        ∀ t : Json,
          resolve_params_deep (resolve_params_deep t artifacts) artifacts
            = resolve_params_deep t artifacts) :=
  ⟨fun a t h => refFree_resolve_id t h a, fun a ha t => resolve_idem a ha t⟩

/-- Witness for C9 (amended) at a reference-free tree and a reference-free
snapshot holding a resolvable reference. -/
theorem resolve_params_deep_idempotent_witness :
    resolve_params_deep (Json.str (lit ("plain"))) [(lit ("t1"), Json.num 5)]
      = Json.str (lit ("plain"))
    ∧ resolve_params_deep
        (resolve_params_deep (Json.str (lit ("\x7b\x7bt1\x7d\x7d")))
          [(lit ("t1"), Json.num 5)])
        [(lit ("t1"), Json.num 5)]
      = resolve_params_deep (Json.str (lit ("\x7b\x7bt1\x7d\x7d")))
          [(lit ("t1"), Json.num 5)] :=
  ⟨resolve_params_deep_idempotent.1 [(lit ("t1"), Json.num 5)]
     (Json.str (lit ("plain"))) (by decide),
   resolve_params_deep_idempotent.2 [(lit ("t1"), Json.num 5)] (by decide)
     (Json.str (lit ("\x7b\x7bt1\x7d\x7d")))⟩

end Photon
